import Mathlib

/-!
Verification of the walmart-order-checker core against its specification.

The Go source is embedded shallowly:
* `pkg/report` types (`Order`, `ShippedOrder`, `Item`) become Lean structures,
  Go zero values becoming field defaults;
* Go `map[string]*T` with in-place mutation becomes an association list
  (`alistFind` / `alistSet`) updated functionally;
* `strings.ReplaceAll(s, "-", "")` becomes `stripHyphens` (removing every
  occurrence of a one-character pattern is exactly a character filter);
* the Go `strings` primitives the source uses (`Contains`, `HasPrefix`,
  `HasSuffix`, `Split`, `TrimSpace`, `TrimPrefix`) are re-implemented over
  `List Char` by structural recursion, so every definition evaluates inside
  the kernel;
* wall-clock instants are `Int` nanoseconds, durations are `Int`.
-/

namespace WalmartOrderChecker

/-- Occurrence test on character lists, structurally recursive so that it
evaluates inside the kernel. -/
def containsSub (pat : List Char) : List Char → Bool
  | [] => pat.isEmpty
  | c :: rest => pat.isPrefixOf (c :: rest) || containsSub pat rest

/-- Model of Go `strings.Contains s pat`. -/
def strContains (s pat : String) : Bool :=
  containsSub pat.data s.data

/-- Model of Go `strings.HasPrefix s pat`. -/
def strStartsWith (s pat : String) : Bool :=
  pat.data.isPrefixOf s.data

/-- Model of Go `strings.HasSuffix s pat`. -/
def strEndsWith (s pat : String) : Bool :=
  pat.data.reverse.isPrefixOf s.data.reverse

/-- Model of Go `strings.ReplaceAll s "-" ""`: removing every occurrence of a
single-character pattern is a character filter. -/
def stripHyphens (s : String) : String :=
  String.mk (s.data.filter (fun c => c ≠ '-'))

/-- Splitting a character list at every occurrence of a separator character. -/
def goSplitChar (sep : Char) : List Char → List (List Char)
  | [] => [[]]
  | c :: rest =>
    if c = sep then [] :: goSplitChar sep rest
    else
      match goSplitChar sep rest with
      | [] => [[c]]
      | p :: ps => (c :: p) :: ps

/-- Model of Go `strings.Split s sep` for a one-character separator (the only
form the source uses: splitting a subject on `"#"`). -/
def goSplit (s : String) (sep : Char) : List String :=
  (goSplitChar sep s.data).map String.mk

/-- Model of Go `strings.TrimSpace` (leading and trailing whitespace removed). -/
def goTrim (s : String) : String :=
  String.mk (((s.data.dropWhile Char.isWhitespace).reverse.dropWhile Char.isWhitespace).reverse)

/-- Model of Go `strings.TrimPrefix s pat`. -/
def goTrimPrefix (s pat : String) : String :=
  if pat.data.isPrefixOf s.data then String.mk (s.data.drop pat.data.length) else s

/-- `report.Item` (report.go:38-42). Go zero values are defaults. -/
structure Item where
  Name : String := ""
  Quantity : Int := 0
  ImageURL : String := ""
deriving DecidableEq, Repr

/-- `report.Order` (report.go:17-27).  `OrderDateParsed` (a `time.Time`) is
modelled as an `Int` timestamp, Go's zero time being `0`. -/
structure Order where
  ID : String := ""
  Items : List Item := []
  Total : String := ""
  OrderDate : String := ""
  OrderDateParsed : Int := 0
  Status : String := ""
deriving DecidableEq, Repr

/-- `report.ShippedOrder` (report.go:30-35). -/
structure ShippedOrder where
  ID : String := ""
  TrackingNumber : String := ""
  Carrier : String := ""
  EstimatedArrival : String := ""
deriving DecidableEq, Repr

/-- Lookup in an association list, modelling Go map indexing `m[k]` with its
`ok` flag (`some` ↔ `ok = true`). -/
def alistFind {α : Type} (l : List (String × α)) (k : String) : Option α :=
  (l.find? (fun p => p.1 == k)).map (fun p => p.2)

/-- Update/insert in an association list, modelling Go map assignment `m[k] = v`. -/
def alistSet {α : Type} (l : List (String × α)) (k : String) (v : α) : List (String × α) :=
  match l with
  | [] => [(k, v)]
  | p :: rest => if p.1 == k then (k, v) :: rest else p :: alistSet rest k v

/-- The order ledger `map[string]*report.Order` built by `ProcessEmails`. -/
abbrev Ledger : Type := List (String × Order)

/-- The status recorded in the ledger for an order ID, if present. -/
def statusAt (l : Ledger) (id : String) : Option String :=
  (alistFind l id).map Order.Status

theorem alistFind_set_self {α : Type} (l : List (String × α)) (k : String) (v : α) :
    alistFind (alistSet l k v) k = some v := by
  induction l with
  | nil => simp [alistSet, alistFind, List.find?]
  | cons p rest ih =>
    by_cases h : p.1 = k
    · simp [alistSet, h, alistFind, List.find?]
    · have hb : (p.1 == k) = false := beq_false_of_ne h
      simp only [alistSet, hb, if_false]
      simpa [alistFind, List.find?, hb] using ih

theorem alistFind_set_other {α : Type} (l : List (String × α)) (k k' : String) (v : α)
    (hne : k' ≠ k) : alistFind (alistSet l k v) k' = alistFind l k' := by
  induction l with
  | nil =>
    have hb : (k == k') = false := beq_false_of_ne (fun h => hne h.symm)
    simp [alistSet, alistFind, List.find?, hb]
  | cons p rest ih =>
    by_cases h : p.1 = k
    · have hb : (k == k') = false := beq_false_of_ne (fun hh => hne hh.symm)
      have hb' : (p.1 == k') = false := beq_false_of_ne (fun hh => hne (h ▸ hh).symm)
      simp [alistSet, h, alistFind, List.find?, hb, hb']
    · have hb : (p.1 == k) = false := beq_false_of_ne h
      simp only [alistSet, hb, if_false]
      by_cases h2 : p.1 = k'
      · simp [alistFind, List.find?, h2]
      · have hb2 : (p.1 == k') = false := beq_false_of_ne h2
        simp only [alistFind, List.find?, hb2]
        simpa [alistFind] using ih

/-! ## Extraction and ledger-merge logic (pkg/gmail, cache.go 403-611) -/

/-- Abstraction of a parsed HTML document (`goquery.Document`).  The DOM
queries run by the extractors are external-library work; each query's result
is a field of this record.  `anchorText` is the raw text of the first
`a[aria-label*=' ']` element, before any trimming or normalization (those
steps are in the source and are modelled below). -/
structure HtmlDoc where
  anchorText : String := ""
  items : List Item := []
  total : String := ""
  orderDate : String := ""
  orderDateParsed : Int := 0
  shippingInfo : List ShippedOrder := []
  deliveredAnchor : String := ""
deriving DecidableEq, Repr

/-- `determineStatus` (cache.go 593-598). -/
def determineStatus (subject : String) : String :=
  if strContains subject "preorder" then "pre-ordered" else "confirmed"

/-- `extractOrderInfo` (cache.go 526-537): the order ID is the anchor text,
trimmed, with hyphens stripped; the remaining fields come from the document
extractors and the subject. -/
def extractOrderInfo (doc : HtmlDoc) (subject : String) : Order :=
  { ID := stripHyphens (goTrim doc.anchorText)
    Items := doc.items
    Total := doc.total
    OrderDate := doc.orderDate
    OrderDateParsed := doc.orderDateParsed
    Status := determineStatus subject }

/-- `processCanceledEmail` (cache.go 403-414): the key is the raw text after
the first `#` of the subject — no trimming, no hyphen stripping. -/
def processCanceledEmail (subject : String) (orders : Ledger) : Ledger :=
  let parts := goSplit subject '#'
  if parts.length ≤ 1 then orders
  else
    let orderID := parts.getD 1 ""
    match alistFind orders orderID with
    | some existing => alistSet orders orderID { existing with Status := "canceled" }
    | none => alistSet orders orderID { ID := orderID, Status := "canceled" }

/-- `processPaymentFailCancelEmail` (cache.go 416-433): `none` models a
`parseMessageHTML` failure (early return); otherwise the anchor text is
trimmed, an empty result aborts, and hyphens are stripped from the key. -/
def processPaymentFailCancelEmail (html : Option HtmlDoc) (orders : Ledger) : Ledger :=
  match html with
  | none => orders
  | some doc =>
    let orderIDRaw := goTrim doc.anchorText
    if orderIDRaw = "" then orders
    else
      let orderID := stripHyphens orderIDRaw
      match alistFind orders orderID with
      | some existing => alistSet orders orderID { existing with Status := "canceled" }
      | none => alistSet orders orderID { ID := orderID, Status := "canceled" }

/-- `processDeliveredEmail` (cache.go 435-461): returns the normalized order
ID (`#` prefix and hyphens removed) of the delivered-order link, or `""`. -/
def processDeliveredEmail (html : Option HtmlDoc) : String :=
  match html with
  | none => ""
  | some doc =>
    if doc.deliveredAnchor = "" then ""
    else
      let s := doc.deliveredAnchor
      let noHash := goTrimPrefix s "#"
      stripHyphens noHash

/-- `mergeOrCreateOrder` (cache.go 600-611).  Items are adopted only when the
existing entry has none; status is adopted unless the existing status is
`"canceled"`; `Total`/`OrderDate` of an existing entry are never touched. -/
def mergeOrCreateOrder (orders : Ledger) (newOrder : Order) : Ledger :=
  match alistFind orders newOrder.ID with
  | some existing =>
    let existing1 := if existing.Items.length == 0 then { existing with Items := newOrder.Items } else existing
    let existing2 := if existing1.Status ≠ "canceled" then { existing1 with Status := newOrder.Status } else existing1
    alistSet orders newOrder.ID existing2
  | none => alistSet orders newOrder.ID newOrder

/-- The shared tail of both cancellation paths (cache.go 409-413 = 428-432):
mark the entry at `orderID` canceled, creating it if absent. -/
def markCanceled (orders : Ledger) (orderID : String) : Ledger :=
  match alistFind orders orderID with
  | some existing => alistSet orders orderID { existing with Status := "canceled" }
  | none => alistSet orders orderID { ID := orderID, Status := "canceled" }

/-- The ledger key a subject-based cancellation inserts, if any. -/
def subjectCancelKey (subject : String) : Option String :=
  let parts := goSplit subject '#'
  if parts.length ≤ 1 then none else some (parts.getD 1 "")

/-- The ledger key a payment-failure cancellation inserts, if any. -/
def paymentFailKey (html : Option HtmlDoc) : Option String :=
  match html with
  | none => none
  | some doc =>
    if goTrim doc.anchorText = "" then none else some (stripHyphens (goTrim doc.anchorText))

theorem processCanceledEmail_eq_markCanceled (subject : String) (orders : Ledger) :
    processCanceledEmail subject orders =
      match subjectCancelKey subject with
      | none => orders
      | some id => markCanceled orders id := by
  unfold processCanceledEmail subjectCancelKey markCanceled
  by_cases h : (goSplit subject '#').length ≤ 1 <;> simp [h]

theorem processPaymentFailCancelEmail_eq_markCanceled (html : Option HtmlDoc) (orders : Ledger) :
    processPaymentFailCancelEmail html orders =
      match paymentFailKey html with
      | none => orders
      | some id => markCanceled orders id := by
  unfold processPaymentFailCancelEmail paymentFailKey markCanceled
  match html with
  | none => rfl
  | some doc => by_cases h : goTrim doc.anchorText = "" <;> simp [h]

/-- One update to the `orders` map: the three code paths of the worker loop
(cache.go 674-681 and 711-724) that mutate it. -/
inductive LedgerUpdate where
  | cancelBySubject (subject : String)
  | cancelByPaymentFail (html : Option HtmlDoc)
  | confirmDelta (o : Order)
deriving DecidableEq

/-- Apply one update to the ledger, dispatching exactly as the worker loop does. -/
def applyUpdate (orders : Ledger) (u : LedgerUpdate) : Ledger :=
  match u with
  | .cancelBySubject subject => processCanceledEmail subject orders
  | .cancelByPaymentFail html => processPaymentFailCancelEmail html orders
  | .confirmDelta o => mergeOrCreateOrder orders o

/-- The ID an update cancels, if it is a cancellation update. -/
def cancelTarget : LedgerUpdate → Option String
  | .cancelBySubject subject => subjectCancelKey subject
  | .cancelByPaymentFail html => paymentFailKey html
  | .confirmDelta _ => none

theorem statusAt_markCanceled_self (orders : Ledger) (id : String) :
    statusAt (markCanceled orders id) id = some "canceled" := by
  unfold markCanceled
  match h : alistFind orders id with
  | some existing => simp [statusAt, alistFind_set_self]
  | none => simp [statusAt, alistFind_set_self]

theorem statusAt_markCanceled_other (orders : Ledger) (id id' : String) (hne : id' ≠ id) :
    statusAt (markCanceled orders id) id' = statusAt orders id' := by
  unfold markCanceled
  match h : alistFind orders id with
  | some existing => simp [statusAt, alistFind_set_other _ _ _ _ hne]
  | none => simp [statusAt, alistFind_set_other _ _ _ _ hne]

/-- Cancellation is absorbing: no single update can change a `"canceled"` status. -/
theorem statusAt_applyUpdate_sticky (l : Ledger) (id : String) (u : LedgerUpdate)
    (h : statusAt l id = some "canceled") :
    statusAt (applyUpdate l u) id = some "canceled" := by
  obtain ⟨e, he, hst⟩ : ∃ e, alistFind l id = some e ∧ e.Status = "canceled" := by
    unfold statusAt at h
    match hf : alistFind l id with
    | some e => exact ⟨e, rfl, by simpa [hf] using h⟩
    | none => simp [hf] at h
  match u with
  | .cancelBySubject subject =>
    rw [show applyUpdate l (.cancelBySubject subject) = processCanceledEmail subject l from rfl,
      processCanceledEmail_eq_markCanceled]
    match subjectCancelKey subject with
    | none => exact h
    | some k =>
      by_cases hk : id = k
      · subst hk; exact statusAt_markCanceled_self l id
      · rw [statusAt_markCanceled_other l k id hk]; exact h
  | .cancelByPaymentFail html =>
    rw [show applyUpdate l (.cancelByPaymentFail html) = processPaymentFailCancelEmail html l from rfl,
      processPaymentFailCancelEmail_eq_markCanceled]
    match paymentFailKey html with
    | none => exact h
    | some k =>
      by_cases hk : id = k
      · subst hk; exact statusAt_markCanceled_self l id
      · rw [statusAt_markCanceled_other l k id hk]; exact h
  | .confirmDelta o =>
    show statusAt (mergeOrCreateOrder l o) id = some "canceled"
    by_cases hid : o.ID = id
    · rw [mergeOrCreateOrder, hid, he]
      simp only [hst, ne_eq, not_true_eq_false, if_false, ite_self]
      have : (if e.Items.length == 0 then { e with Items := o.Items } else e).Status = "canceled" := by
        by_cases hi : e.Items.length == 0 <;> simp [hi, hst]
      simp only [statusAt, alistFind_set_self, Option.map_some]
      by_cases hi : e.Items.length == 0 <;> simp_all
    · unfold mergeOrCreateOrder
      match alistFind l o.ID with
      | some ex =>
        simp only [statusAt, alistFind_set_other _ _ _ _ (fun hh => hid hh.symm)]
        simpa [statusAt] using h
      | none =>
        simp only [statusAt, alistFind_set_other _ _ _ _ (fun hh => hid hh.symm)]
        simpa [statusAt] using h

/-- After a cancellation update for `id`, the status at `id` is `"canceled"`. -/
theorem statusAt_applyUpdate_cancel (l : Ledger) (id : String) (u : LedgerUpdate)
    (h : cancelTarget u = some id) :
    statusAt (applyUpdate l u) id = some "canceled" := by
  match u with
  | .cancelBySubject subject =>
    rw [show applyUpdate l (.cancelBySubject subject) = processCanceledEmail subject l from rfl,
      processCanceledEmail_eq_markCanceled]
    rw [show cancelTarget (.cancelBySubject subject) = subjectCancelKey subject from rfl] at h
    rw [h]
    exact statusAt_markCanceled_self l id
  | .cancelByPaymentFail html =>
    rw [show applyUpdate l (.cancelByPaymentFail html) = processPaymentFailCancelEmail html l from rfl,
      processPaymentFailCancelEmail_eq_markCanceled]
    rw [show cancelTarget (.cancelByPaymentFail html) = paymentFailKey html from rfl] at h
    rw [h]
    exact statusAt_markCanceled_self l id
  | .confirmDelta o => simp [cancelTarget] at h

theorem statusAt_foldl_sticky (us : List LedgerUpdate) (l : Ledger) (id : String)
    (h : statusAt l id = some "canceled") :
    statusAt (List.foldl applyUpdate l us) id = some "canceled" := by
  induction us generalizing l with
  | nil => exact h
  | cons u rest ih => exact ih _ (statusAt_applyUpdate_sticky l id u h)

theorem hyphen_not_mem_stripHyphens (s : String) : '-' ∉ (stripHyphens s).data := by
  intro h
  have := List.of_mem_filter h
  simp at this

/-- C1: Cancellation is sticky in the ledger merge: for every order ID and for
every interleaving/order of arrival of a cancellation update and any sequence
of other (confirmation/pre-order, or even further cancellation) updates, once
the entry's status has been set to `"canceled"` no later merge changes it, so
the final status is `"canceled"`. -/
theorem c1_cancellation_sticky (l : Ledger) (id : String)
    (pre post : List LedgerUpdate) (c : LedgerUpdate)
    (hc : cancelTarget c = some id) :
    statusAt (List.foldl applyUpdate l (pre ++ c :: post)) id = some "canceled" := by
  rw [List.foldl_append, List.foldl_cons]
  exact statusAt_foldl_sticky post _ id (statusAt_applyUpdate_cancel _ id c hc)

/-- Witness for `c1_cancellation_sticky`: a confirmation, then a cancellation,
then another confirmation for order `200013189912005`. -/
theorem c1_cancellation_sticky_witness :
    statusAt (List.foldl applyUpdate []
        ([LedgerUpdate.confirmDelta { ID := "200013189912005", Status := "confirmed" }] ++
          LedgerUpdate.cancelBySubject "Canceled: delivery from order #200013189912005" ::
          [LedgerUpdate.confirmDelta { ID := "200013189912005", Status := "confirmed" }]))
      "200013189912005" = some "canceled" :=
  c1_cancellation_sticky [] "200013189912005"
    [LedgerUpdate.confirmDelta { ID := "200013189912005", Status := "confirmed" }]
    [LedgerUpdate.confirmDelta { ID := "200013189912005", Status := "confirmed" }]
    (LedgerUpdate.cancelBySubject "Canceled: delivery from order #200013189912005")
    (by decide)

/-- C2 counterexample: an existing entry whose `Total` and `OrderDate` are
empty, merged with a delta carrying non-empty values for both, keeps the empty
fields — `mergeOrCreateOrder` never fills scalar fields of an existing entry,
refuting the fill-if-empty half of the claim. -/
theorem c2_counterexample :
    let existing : Order := { ID := "200013189912005", Status := "confirmed" }
    let delta : Order :=
      { ID := "200013189912005", Total := "$20.00", OrderDate := "Mon, Jan 2, 2006",
        Status := "confirmed" }
    let merged := alistFind (mergeOrCreateOrder [("200013189912005", existing)] delta) "200013189912005"
    merged.map Order.Total = some "" ∧ merged.map Order.OrderDate = some "" ∧
      delta.Total = "$20.00" ∧ delta.OrderDate = "Mon, Jan 2, 2006" := by
  decide

/-- C2 (amended): `total` and `orderDate` are taken only from the delta that
creates the entry; a merge into an existing entry never modifies them — it
neither fills an empty field from the delta nor overwrites a set one. -/
theorem c2_amended_scalars_frozen (l : Ledger) (delta : Order) :
    (∀ existing, alistFind l delta.ID = some existing →
      ∃ merged, alistFind (mergeOrCreateOrder l delta) delta.ID = some merged ∧
        merged.Total = existing.Total ∧ merged.OrderDate = existing.OrderDate ∧
        merged.OrderDateParsed = existing.OrderDateParsed) ∧
    (alistFind l delta.ID = none →
      alistFind (mergeOrCreateOrder l delta) delta.ID = some delta) := by
  constructor
  · intro existing h
    unfold mergeOrCreateOrder
    rw [h]
    refine ⟨_, alistFind_set_self .., ?_, ?_, ?_⟩ <;>
      by_cases hi : existing.Items.length == 0 <;>
      by_cases hs : existing.Status ≠ "canceled" <;>
      simp [hi, hs]
  · intro h
    unfold mergeOrCreateOrder
    rw [h]
    exact alistFind_set_self ..

/-- Witness for `c2_amended_scalars_frozen`: both branches at concrete inputs. -/
theorem c2_amended_scalars_frozen_witness :
    (∃ merged,
      alistFind
          (mergeOrCreateOrder [("200013189912005", { ID := "200013189912005", Total := "$5.00", Status := "confirmed" })]
            { ID := "200013189912005", Total := "$20.00", Status := "confirmed" })
          "200013189912005" = some merged ∧
        merged.Total = "$5.00" ∧ merged.OrderDate = "" ∧ merged.OrderDateParsed = 0) ∧
    alistFind (mergeOrCreateOrder [] { ID := "200013189912005", Total := "$20.00", Status := "confirmed" })
        "200013189912005" =
      some { ID := "200013189912005", Total := "$20.00", Status := "confirmed" } := by
  refine ⟨?_, ?_⟩
  · exact (c2_amended_scalars_frozen
      [("200013189912005", { ID := "200013189912005", Total := "$5.00", Status := "confirmed" })]
      { ID := "200013189912005", Total := "$20.00", Status := "confirmed" }).1
      { ID := "200013189912005", Total := "$5.00", Status := "confirmed" } (by decide)
  · exact (c2_amended_scalars_frozen [] { ID := "200013189912005", Total := "$20.00", Status := "confirmed" }).2
      (by decide)

/-- C3 counterexample: a subject-based cancellation inserts the raw text after
`#` — hyphens are NOT stripped — so for an upstream order number written with
a hyphen, the cancellation and the confirmation use different ledger keys, and
processing both leaves the confirmation entry with status `"confirmed"`. -/
theorem c3_counterexample :
    let subject := "Canceled: delivery from order #2000131-89912005"
    let doc : HtmlDoc := { anchorText := "2000131-89912005" }
    let confirmed := extractOrderInfo doc "thanks for your order"
    (processCanceledEmail subject []).map Prod.fst = ["2000131-89912005"] ∧
      '-' ∈ "2000131-89912005".data ∧
      confirmed.ID = "200013189912005" ∧
      statusAt (processCanceledEmail subject (mergeOrCreateOrder [] confirmed)) confirmed.ID =
        some "confirmed" := by
  decide

/-- C3 (amended): keys inserted by the confirmation and payment-failure paths
are hyphen-stripped, but the subject-based cancellation key is the raw subject
text after the first `#`; whenever that raw text coincides with the
confirmation's normalized ID (e.g. the subject writes the order number without
hyphens), both messages address one entry and either processing order leaves
its final status `"canceled"`. -/
theorem c3_amended_keys :
    (∀ (doc : HtmlDoc) (subject : String), '-' ∉ (extractOrderInfo doc subject).ID.data) ∧
    (∀ (html : Option HtmlDoc) (id : String), paymentFailKey html = some id → '-' ∉ id.data) ∧
    (∀ (subject : String) (o : Order) (l : Ledger) (id : String),
      subjectCancelKey subject = some id → o.ID = id →
      statusAt (processCanceledEmail subject (mergeOrCreateOrder l o)) id = some "canceled" ∧
      statusAt (mergeOrCreateOrder (processCanceledEmail subject l) o) id = some "canceled") := by
  refine ⟨?_, ?_, ?_⟩
  · intro doc subject
    exact hyphen_not_mem_stripHyphens _
  · intro html id h
    match html with
    | none => simp [paymentFailKey] at h
    | some doc =>
      by_cases he : goTrim doc.anchorText = ""
      · simp [paymentFailKey, he] at h
      · simp only [paymentFailKey, he, if_false, Option.some_inj] at h
        rw [← h]
        exact hyphen_not_mem_stripHyphens _
  · intro subject o l id hk ho
    constructor
    · rw [processCanceledEmail_eq_markCanceled, hk]
      exact statusAt_markCanceled_self _ _
    · have hcanc : statusAt (processCanceledEmail subject l) id = some "canceled" := by
        rw [processCanceledEmail_eq_markCanceled, hk]
        exact statusAt_markCanceled_self _ _
      exact statusAt_applyUpdate_sticky _ _ (.confirmDelta o) hcanc

/-- Witness for `c3_amended_keys`: concrete instances of all three parts. -/
theorem c3_amended_keys_witness :
    '-' ∉ (extractOrderInfo { anchorText := "2000131-89912005" } "thanks for your order").ID.data ∧
    '-' ∉ "200013189912005".data ∧
    (statusAt
        (processCanceledEmail "Canceled: delivery from order #200013189912005"
          (mergeOrCreateOrder [] { ID := "200013189912005", Status := "confirmed" }))
        "200013189912005" = some "canceled" ∧
      statusAt
        (mergeOrCreateOrder (processCanceledEmail "Canceled: delivery from order #200013189912005" [])
          { ID := "200013189912005", Status := "confirmed" })
        "200013189912005" = some "canceled") := by
  refine ⟨c3_amended_keys.1 { anchorText := "2000131-89912005" } "thanks for your order", ?_, ?_⟩
  · exact c3_amended_keys.2.1 (some { anchorText := "2000131-89912005" }) "200013189912005" (by decide)
  · exact c3_amended_keys.2.2 "Canceled: delivery from order #200013189912005"
      { ID := "200013189912005", Status := "confirmed" } [] "200013189912005" (by decide) (by decide)

/-! ## Result cache (cache.go 17-164)

The SQLite table `parsed_results (message_id TEXT PRIMARY KEY, result_data
BLOB, created_at INTEGER)` is modelled as an association list from message ID
to a row; JSON (de)serialisation of `CachedResult` is modelled as the
identity (round-trip fidelity of `encoding/json` on these records).
`created_at` is in Unix seconds, as in the source. -/

/-- `CachedResult` (cache.go 25-28). -/
structure CachedResult where
  order : Option Order := none
  shipped : List ShippedOrder := []
deriving DecidableEq, Repr

/-- One row of `parsed_results`. -/
structure CacheRow where
  resultData : CachedResult
  createdAt : Int
deriving DecidableEq, Repr

/-- The `parsed_results` table, keyed by `message_id` (primary key). -/
abbrev CacheStore : Type := List (String × CacheRow)

/-- `MessageCache.Set` (cache.go 127-138): `INSERT OR REPLACE` with the
current Unix time — an upsert that overwrites the value and timestamp. -/
def cacheSet (store : CacheStore) (msgID : String) (result : CachedResult) (now : Int) :
    CacheStore :=
  alistSet store msgID { resultData := result, createdAt := now }

/-- `MessageCache.Get` (cache.go 107-125): `SELECT result_data FROM
parsed_results WHERE message_id = ? AND created_at > ?` with
`cutoff = now - ttl`; a missing or expired row yields `(none, false)`. -/
def cacheGet (store : CacheStore) (msgID : String) (now ttl : Int) :
    Option CachedResult × Bool :=
  let cutoff := now - ttl
  match alistFind store msgID with
  | some row => if row.createdAt > cutoff then (some row.resultData, true) else (none, false)
  | none => (none, false)

/-- One pass of `MessageCache.periodicCleanup` (cache.go 156-164):
`DELETE FROM parsed_results WHERE created_at <= cutoff`. -/
def cleanupSweep (store : CacheStore) (now ttl : Int) : CacheStore :=
  store.filter (fun r => r.2.createdAt > now - ttl)

/-- C8: Cache round-trip: `Set(id, r)` followed by `Get(id)` before the TTL
has elapsed returns `(r, true)`, and `Set` is an upsert — after a second `Set`
for the same key the most recent write is returned. -/
theorem c8_cache_roundtrip (store : CacheStore) (id : String) (r rOld : CachedResult)
    (tOld tSet tGet ttl : Int) (h : tGet - tSet < ttl) :
    cacheGet (cacheSet store id r tSet) id tGet ttl = (some r, true) ∧
    cacheGet (cacheSet (cacheSet store id rOld tOld) id r tSet) id tGet ttl = (some r, true) := by
  have hlive : tSet > tGet - ttl := by omega
  constructor
  · unfold cacheGet cacheSet
    rw [alistFind_set_self]
    simp [hlive]
  · unfold cacheGet cacheSet
    rw [alistFind_set_self]
    simp [hlive]

/-- Witness for `c8_cache_roundtrip`. -/
theorem c8_cache_roundtrip_witness :
    cacheGet (cacheSet [] "msg01" { order := some { ID := "200013189912005" } } 100) "msg01" 150 86400 =
      (some { order := some { ID := "200013189912005" } }, true) ∧
    cacheGet (cacheSet (cacheSet [] "msg01" { } 0) "msg01" { order := some { ID := "200013189912005" } } 100)
        "msg01" 150 86400 =
      (some { order := some { ID := "200013189912005" } }, true) :=
  c8_cache_roundtrip [] "msg01" { order := some { ID := "200013189912005" } } { } 0 100 150 86400
    (by decide)

/-- C9: Cache expiry is lazy: a `Get` strictly more than TTL after the row's
`created_at` returns not-found although the row is still physically present
(the read does not delete it); the periodic sweep is what purges such rows. -/
theorem c9_cache_lazy_expiry (store : CacheStore) (id : String) (row : CacheRow)
    (now ttl : Int) (hfind : alistFind store id = some row)
    (hexp : now - row.createdAt > ttl) :
    cacheGet store id now ttl = (none, false) ∧ (id, row) ∉ cleanupSweep store now ttl := by
  constructor
  · unfold cacheGet
    rw [hfind]
    have : ¬ row.createdAt > now - ttl := by omega
    simp [this]
  · intro hmem
    have := List.of_mem_filter hmem
    simp only [decide_eq_true_eq] at this
    omega

/-- Witness for `c9_cache_lazy_expiry`: a row created at 0, read at `ttl + 1`. -/
theorem c9_cache_lazy_expiry_witness :
    cacheGet [("msg01", { resultData := { }, createdAt := 0 })] "msg01" 86401 86400 = (none, false) ∧
    ("msg01", ({ resultData := { }, createdAt := 0 } : CacheRow)) ∉
      cleanupSweep [("msg01", { resultData := { }, createdAt := 0 })] 86401 86400 :=
  c9_cache_lazy_expiry [("msg01", { resultData := { }, createdAt := 0 })] "msg01"
    { resultData := { }, createdAt := 0 } 86401 86400 (by decide) (by decide)

/-! ## Scan state, watchdog and HTTP handlers (internal/api/handlers.go) -/

/-- One nanosecond-count per second (`time.Second`). -/
def nsPerSecond : Int := 1000000000

/-- `ScanProgress` (handlers.go 27-38).  `Orders` is a nil-able Go map, hence
`Option Ledger`; times are `Int` nanosecond instants. -/
structure ScanProgress where
  inProgress : Bool := false
  totalMessages : Nat := 0
  processed : Nat := 0
  currentEmail : String := ""
  startTime : Int := 0
  lastProgressUpdate : Int := 0
  orders : Option Ledger := none
  shipped : List ShippedOrder := []
  error : String := ""
  daysScanned : Int := 0
deriving DecidableEq, Repr

/-- The scan-start request body (handlers.go 110-113). -/
structure ScanRequest where
  days : Int := 0
  clearCache : Bool := false
deriving DecidableEq, Repr

/-- The state `HandleScan` installs when it accepts a request
(handlers.go 133-142): fresh, in progress, with no orders yet. -/
def initialScan (email : String) (days : Int) (now : Int) : ScanProgress :=
  { inProgress := true
    startTime := now
    lastProgressUpdate := now
    currentEmail := email
    daysScanned := days }

/-- Apply an update to `s.activeScan` under the nil-guard every mutation in
the source carries (`if s.activeScan != nil`). -/
def optUpd (st : Option ScanProgress) (f : ScanProgress → ScanProgress) : Option ScanProgress :=
  match st with
  | none => none
  | some a => some (f a)

/-- Possible effects of one watchdog poll. -/
inductive WatchAction where
  | exitLoop
  | keepPolling
  | timeoutCancel
deriving DecidableEq, Repr

/-- One poll of `watchProgress` (handlers.go 155-177; the ticker fires every
5 s, and `now` is the instant of this poll).  `timeoutCancel` models calling
`cancel()` on the pipeline context and returning. -/
def watchProgressTick (st : Option ScanProgress) (now : Int) :
    Option ScanProgress × WatchAction :=
  match st with
  | none => (none, .exitLoop)
  | some a =>
    if !a.inProgress then (some a, .exitLoop)
    else
      let idle := now - a.lastProgressUpdate
      if idle > 30 * nsPerSecond then
        (some { a with
                  error := "Scan timed out - no progress for 30 seconds. Please try again.",
                  inProgress := false },
          .timeoutCancel)
      else (some a, .keepPolling)

/-- The progress callback `runScan` hands to the pipeline
(handlers.go 227-234). -/
def progressCallback (st : Option ScanProgress) (processed : Nat) (now : Int) :
    Option ScanProgress :=
  match st with
  | none => none
  | some a =>
    if a.processed ≠ processed then
      some { a with processed := processed, lastProgressUpdate := now }
    else some a

/-- `HandleScan` (handlers.go 96-153) as a function from the request and the
current scan state to an HTTP status code and the next scan state.  `authed`
is the session check, `body` the decoded JSON body (`none` = decode error),
`gmailOk` whether `GetGmailService` succeeds. -/
def handleScan (authed : Bool) (st : Option ScanProgress) (body : Option ScanRequest)
    (gmailOk : Bool) (email : String) (now : Int) : Nat × Option ScanProgress :=
  if !authed then (401, st)
  else if (match st with | some a => a.inProgress | none => false) then (409, st)
  else
    match body with
    | none => (400, st)
    | some req =>
      let days := if req.days ≤ 0 then 10 else if req.days > 365 then 365 else req.days
      if !gmailOk then (500, st)
      else (202, some (initialScan email days now))

/-- Modelled from the spec: `ProcessEmailsWithProgress` is called by `runScan`
but lives outside the sources at hand; per the pipeline contract (§4.4), it
returns the ledger and shipments with a nil error on success, and on a fatal
condition (e.g. context cancellation) an error together with the partially
merged ledger state accumulated so far. -/
inductive PipelineResult where
  | ok (orders : Ledger) (shipped : List ShippedOrder)
  | fail (e : String) (partialOrders : Ledger) (partialShipped : List ShippedOrder)
deriving DecidableEq, Repr

/-- `runScan` (handlers.go 179-256) as a state transformer: the deferred
`inProgress := false` is applied on every return path; on a listing failure
or a pipeline error only `error` is set — the pipeline's (partial) results
are never stored; on success orders, shipments and the processed count are
stored. -/
def runScan (st0 : Option ScanProgress) (gmailOk : Bool)
    (listing : Except String (List String)) (pipeline : PipelineResult) :
    Option ScanProgress :=
  if !gmailOk then
    optUpd st0 (fun a => { a with error := "invalid gmail service", inProgress := false })
  else
    match listing with
    | .error e => optUpd st0 (fun a => { a with error := e, inProgress := false })
    | .ok msgs =>
      let st1 := optUpd st0 (fun a => { a with totalMessages := msgs.length })
      match pipeline with
      | .fail e _ _ => optUpd st1 (fun a => { a with error := e, inProgress := false })
      | .ok orders shipped =>
        optUpd st1 (fun a =>
          { a with orders := some orders, shipped := shipped,
                   processed := msgs.length, inProgress := false })

/-- `HandleReport` (handlers.go 281-327): 401 when unauthenticated, 404 when
there is no scan state or its `Orders` map is nil, otherwise the ledger and
shipments it builds the report from. -/
def handleReport (authed : Bool) (st : Option ScanProgress) :
    Except Nat (Ledger × List ShippedOrder) :=
  if !authed then .error 401
  else
    match st with
    | none => .error 404
    | some a =>
      match a.orders with
      | none => .error 404
      | some orders => .ok (orders, a.shipped)

instance {ε α : Type} [DecidableEq ε] [DecidableEq α] : DecidableEq (Except ε α) := fun x y =>
  match x, y with
  | .ok a, .ok b => if h : a = b then isTrue (by rw [h]) else isFalse (by simp [h])
  | .ok _, .error _ => isFalse (by simp)
  | .error _, .ok _ => isFalse (by simp)
  | .error a, .error b => if h : a = b then isTrue (by rw [h]) else isFalse (by simp [h])

/-- C4 counterexample: a freshly started scan whose pipeline fails (e.g. the
stall-timeout cancellation) after having merged a non-empty partial ledger
ends with the error recorded and `inProgress = false`, but the partial ledger
is dropped — the scan state holds no orders and the report endpoint answers
404, refuting "retained and remain readable". -/
theorem c4_counterexample :
    let st0 := some (initialScan "user@example.com" 10 0)
    let partialLedger : Ledger := [("200013189912005", { ID := "200013189912005", Status := "confirmed" })]
    let final := runScan st0 true (.ok ["m1", "m2"]) (.fail "context canceled" partialLedger [])
    partialLedger ≠ [] ∧
      final.map ScanProgress.orders = some none ∧
      final.map ScanProgress.error = some "context canceled" ∧
      final.map ScanProgress.inProgress = some false ∧
      handleReport true final = .error 404 := by
  decide

/-- C4 (amended): when a scan ends with a fatal error (invalid service,
listing failure, or pipeline failure — including the stall timeout), the
state records the error and `inProgress = false`, but the `Orders` field of
the freshly started scan stays nil: partial results are discarded, and the
report endpoint returns 404 rather than partial analytics. -/
theorem c4_amended_fatal_error_discards_ledger (a0 : ScanProgress) (gmailOk : Bool)
    (listing : Except String (List String)) (pipeline : PipelineResult)
    (h0 : a0.orders = none)
    (hfatal : gmailOk = false ∨ (∃ e, listing = .error e) ∨
      ∃ e po ps, pipeline = .fail e po ps) :
    ∃ a, runScan (some a0) gmailOk listing pipeline = some a ∧
      a.orders = none ∧ a.inProgress = false ∧
      handleReport true (some a) = .error 404 := by
  match hg : gmailOk with
  | false => exact ⟨_, rfl, by simp [optUpd, runScan, handleReport, h0]⟩
  | true =>
    subst hg
    rcases hfatal with hgf | ⟨e, hl⟩ | ⟨e, po, ps, hp⟩
    · exact absurd hgf (by simp)
    · subst hl
      exact ⟨_, rfl, by simp [optUpd, runScan, handleReport, h0]⟩
    · subst hp
      match listing with
      | .error eL => exact ⟨_, rfl, by simp [optUpd, runScan, handleReport, h0]⟩
      | .ok msgs => exact ⟨_, rfl, by simp [optUpd, runScan, handleReport, h0]⟩

/-- Witness for `c4_amended_fatal_error_discards_ledger`: a listing failure on
a freshly started scan. -/
theorem c4_amended_fatal_error_discards_ledger_witness :
    ∃ a, runScan (some (initialScan "user@example.com" 10 0)) true
        (.error "list messages: rateLimitExceeded") (.ok [] []) = some a ∧
      a.orders = none ∧ a.inProgress = false ∧
      handleReport true (some a) = .error 404 :=
  c4_amended_fatal_error_discards_ledger (initialScan "user@example.com" 10 0) true
    (.error "list messages: rateLimitExceeded") (.ok [] []) (by decide)
    (Or.inr (Or.inl ⟨"list messages: rateLimitExceeded", rfl⟩))

/-- C5: one watchdog poll: while a scan is in progress and the elapsed time
since `lastProgressUpdate` strictly exceeds 30 s it records the timeout
error, clears `inProgress` and cancels the pipeline context; in every other
state it changes nothing — it keeps polling while progress is fresh and exits
once `inProgress` is false (or there is no scan). -/
theorem c5_watchdog_tick (st : Option ScanProgress) (now : Int) :
    (∀ a, st = some a → a.inProgress = true →
      now - a.lastProgressUpdate > 30 * nsPerSecond →
      watchProgressTick st now =
        (some { a with
                  error := "Scan timed out - no progress for 30 seconds. Please try again.",
                  inProgress := false },
          .timeoutCancel)) ∧
    (∀ a, st = some a → a.inProgress = true →
      ¬(now - a.lastProgressUpdate > 30 * nsPerSecond) →
      watchProgressTick st now = (st, .keepPolling)) ∧
    (∀ a, st = some a → a.inProgress = false →
      watchProgressTick st now = (st, .exitLoop)) ∧
    (st = none → watchProgressTick st now = (st, .exitLoop)) := by
  refine ⟨?_, ?_, ?_, ?_⟩
  · intro a hst hp hidle
    subst hst
    simp [watchProgressTick, hp, hidle]
  · intro a hst hp hidle
    subst hst
    simp [watchProgressTick, hp, hidle]
  · intro a hst hp
    subst hst
    simp [watchProgressTick, hp]
  · intro hst
    subst hst
    rfl

/-- Witness for `c5_watchdog_tick`: the timeout branch and the fresh branch at
concrete instants. -/
theorem c5_watchdog_tick_witness :
    watchProgressTick (some (initialScan "user@example.com" 10 0)) (31 * nsPerSecond) =
      (some { initialScan "user@example.com" 10 0 with
                error := "Scan timed out - no progress for 30 seconds. Please try again.",
                inProgress := false },
        .timeoutCancel) ∧
    watchProgressTick (some (initialScan "user@example.com" 10 0)) (5 * nsPerSecond) =
      (some (initialScan "user@example.com" 10 0), .keepPolling) := by
  constructor
  · exact (c5_watchdog_tick (some (initialScan "user@example.com" 10 0)) (31 * nsPerSecond)).1
      (initialScan "user@example.com" 10 0) rfl (by decide) (by decide)
  · exact (c5_watchdog_tick (some (initialScan "user@example.com" 10 0)) (5 * nsPerSecond)).2.1
      (initialScan "user@example.com" 10 0) rfl (by decide) (by decide)

/-- C6: at most one scan in flight: an authenticated start-scan request that
arrives while the current scan state has `inProgress = true` is answered 409
synchronously — before the body is even decoded — and leaves the active
scan's state untouched; nothing is queued. -/
theorem c6_concurrent_scan_rejected (st : Option ScanProgress) (a : ScanProgress)
    (body : Option ScanRequest) (gmailOk : Bool) (email : String) (now : Int)
    (hs : st = some a) (hp : a.inProgress = true) :
    handleScan true st body gmailOk email now = (409, st) := by
  subst hs
  simp [handleScan, hp]

/-- Witness for `c6_concurrent_scan_rejected`. -/
theorem c6_concurrent_scan_rejected_witness :
    handleScan true (some (initialScan "user@example.com" 10 0))
        (some { days := 30 }) true "other@example.com" 99 =
      (409, some (initialScan "user@example.com" 10 0)) :=
  c6_concurrent_scan_rejected (some (initialScan "user@example.com" 10 0))
    (initialScan "user@example.com" 10 0) (some { days := 30 }) true "other@example.com" 99
    rfl (by decide)

/-! ## Ingestion pipeline: fetch retry and worker loop (cache.go 622-739)

The worker pool is modelled sequentially: each job is processed by the same
per-job body the workers run, and the merge rules are what make the outcome
independent of inter-message ordering.  The upstream `Users.Messages.Get`
call for one message ID is a function from the attempt number to its
outcome. -/

/-- A fetched message, reduced to what the worker reads: its subject header
and its parsed HTML body (`none` when `parseMessageHTML` fails). -/
structure EmailMsg where
  subject : String := ""
  html : Option HtmlDoc := none
deriving DecidableEq, Repr

/-- Outcome of one upstream fetch attempt. -/
inductive FetchOutcome where
  | ok (m : EmailMsg)
  | err (e : String)
deriving DecidableEq, Repr

/-- The transient-error classification (cache.go 649). -/
def isTransientErr (e : String) : Bool :=
  strContains e "rateLimitExceeded" || strContains e "backendError"

/-- `maxAttempts` (cache.go 642). -/
def maxAttempts : Nat := 5

/-- The `getMessage` retry loop (cache.go 641-657), written with the number
of remaining attempts (`maxAttempts - attempt`) as the recursion measure.
The second component is the sequence of backoff sleeps taken (in seconds):
the loop sleeps `backoff` then doubles it after every transient failure. -/
def getMessageLoop (fetch : Nat → FetchOutcome) (attempt backoff remaining : Nat) :
    FetchOutcome × List Nat :=
  match remaining with
  | 0 => (.err "max retries exceeded", [])
  | r + 1 =>
    match fetch attempt with
    | .ok m => (.ok m, [])
    | .err e =>
      if isTransientErr e then
        let rest := getMessageLoop fetch (attempt + 1) (backoff * 2) r
        (rest.1, backoff :: rest.2)
      else (.err e, [])

/-- `getMessage` (cache.go 641-657): up to `maxAttempts` attempts, backoff
starting at 1 s. -/
def getMessage (fetch : Nat → FetchOutcome) : FetchOutcome × List Nat :=
  getMessageLoop fetch 0 1 maxAttempts

/-- The state the workers share: the order ledger, the shipped list with its
dedup set, and the processed counter (the progress the pipeline reports). -/
structure ScanState where
  orders : Ledger := []
  shipped : List ShippedOrder := []
  shippedIDs : List String := []
  processed : Nat := 0
deriving DecidableEq, Repr

/-- Dedup-insert of one shipped record by tracking number (cache.go 687-692). -/
def addShipped (st : ScanState) (s : ShippedOrder) : ScanState :=
  if st.shippedIDs.contains s.TrackingNumber then st
  else { st with
           shipped := st.shipped ++ [s],
           shippedIDs := st.shippedIDs ++ [s.TrackingNumber] }

/-- `processShippedEmail` (cache.go 463-469): nothing on an HTML-parse
failure, otherwise the extracted shipping records. -/
def processShippedEmail (html : Option HtmlDoc) : List ShippedOrder :=
  match html with
  | none => []
  | some doc => doc.shippingInfo

/-- The worker's subject dispatch (cache.go 674-725) for one successfully
fetched message. -/
def handleParsedMessage (st : ScanState) (m : EmailMsg) : ScanState :=
  if strContains m.subject "Canceled:" then
    { st with orders := processCanceledEmail m.subject st.orders }
  else if strEndsWith m.subject "was canceled 🔴" then
    { st with orders := processPaymentFailCancelEmail m.html st.orders }
  else if strContains m.subject "Shipped:" then
    let newShipped := processShippedEmail m.html
    if newShipped.length > 0 then newShipped.foldl addShipped st else st
  else if strStartsWith m.subject "Arrived:" || strStartsWith m.subject "Delivered:" then
    let deliveredOrderID := processDeliveredEmail m.html
    if deliveredOrderID ≠ "" then
      if st.shippedIDs.contains deliveredOrderID then st
      else
        { st with
            shipped := st.shipped ++
              [{ ID := deliveredOrderID, TrackingNumber := "DELIVERED",
                 Carrier := "Delivered", EstimatedArrival := "" }],
            shippedIDs := st.shippedIDs ++ [deliveredOrderID] }
    else st
  else
    match m.html with
    | none => st
    | some doc =>
      let order := extractOrderInfo doc m.subject
      if order.ID ≠ "" then { st with orders := mergeOrCreateOrder st.orders order } else st

/-- One worker iteration for one job (cache.go 663-727): fetch with retry; on
failure log, count the message as processed and continue; on success dispatch
and count. -/
def processJob (st : ScanState) (fetch : Nat → FetchOutcome) : ScanState :=
  match (getMessage fetch).1 with
  | .err _ => { st with processed := st.processed + 1 }
  | .ok m =>
    let st1 := handleParsedMessage st m
    { st1 with processed := st1.processed + 1 }

/-- `ProcessEmails` (cache.go 622-739), sequential model of the pool draining
the job queue. -/
def processEmails (jobs : List (Nat → FetchOutcome)) (st : ScanState) : ScanState :=
  jobs.foldl processJob st

theorem getMessageLoop_congr (fetch g : Nat → FetchOutcome) :
    ∀ (remaining attempt backoff : Nat),
      (∀ k, attempt ≤ k → k < attempt + remaining → fetch k = g k) →
      getMessageLoop fetch attempt backoff remaining = getMessageLoop g attempt backoff remaining := by
  intro remaining
  induction remaining with
  | zero => intro attempt backoff h; rfl
  | succ r ih =>
    intro attempt backoff h
    have h0 : fetch attempt = g attempt := h attempt le_rfl (by omega)
    unfold getMessageLoop
    rw [h0]
    match g attempt with
    | .ok m => rfl
    | .err e =>
      by_cases ht : isTransientErr e
      · simp only [ht, if_true]
        rw [ih (attempt + 1) (backoff * 2) (fun k hk1 hk2 => h k (by omega) (by omega))]
      · simp [ht]

theorem getMessageLoop_sleeps (fetch : Nat → FetchOutcome) :
    ∀ (remaining attempt backoff : Nat),
      (getMessageLoop fetch attempt backoff remaining).2 =
        (List.range (getMessageLoop fetch attempt backoff remaining).2.length).map
          (fun i => backoff * 2 ^ i) := by
  intro remaining
  induction remaining with
  | zero => intro attempt backoff; rfl
  | succ r ih =>
    intro attempt backoff
    unfold getMessageLoop
    match fetch attempt with
    | .ok m => rfl
    | .err e =>
      by_cases ht : isTransientErr e
      · simp only [ht, if_true, List.length_cons]
        rw [List.range_succ_eq_map, List.map_cons, List.map_map]
        have htail : (getMessageLoop fetch (attempt + 1) (backoff * 2) r).2 =
            List.map ((fun i => backoff * 2 ^ i) ∘ Nat.succ)
              (List.range (getMessageLoop fetch (attempt + 1) (backoff * 2) r).2.length) := by
          rw [ih (attempt + 1) (backoff * 2)]
          simp only [List.length_map, List.length_range]
          apply List.map_congr_left
          intro i _
          simp only [Function.comp_apply, pow_succ]
          ring
        exact congrArg₂ List.cons (by norm_num) htail
      · simp [ht]

theorem getMessageLoop_err_at (fetch : Nat → FetchOutcome) (e : String)
    (he : isTransientErr e = false) :
    ∀ (k remaining attempt backoff : Nat), k < remaining →
      (∀ j, j < k → ∃ ej, fetch (attempt + j) = .err ej ∧ isTransientErr ej = true) →
      fetch (attempt + k) = .err e →
      (getMessageLoop fetch attempt backoff remaining).1 = .err e ∧
        (getMessageLoop fetch attempt backoff remaining).2.length = k := by
  intro k
  induction k with
  | zero =>
    intro remaining attempt backoff hk hearlier hfe
    match remaining, hk with
    | r + 1, _ =>
      simp only [Nat.add_zero] at hfe
      unfold getMessageLoop
      rw [hfe]
      simp [he]
  | succ n ih =>
    intro remaining attempt backoff hk hearlier hfe
    match remaining, hk with
    | r + 1, _ =>
      obtain ⟨e0, hf0, ht0⟩ := hearlier 0 (Nat.succ_pos n)
      simp only [Nat.add_zero] at hf0
      unfold getMessageLoop
      rw [hf0]
      simp only [ht0, if_true]
      have := ih r (attempt + 1) (backoff * 2) (by omega)
        (fun j hj => by
          obtain ⟨ej, hfj, htj⟩ := hearlier (j + 1) (by omega)
          exact ⟨ej, by rw [show attempt + 1 + j = attempt + (j + 1) by omega]; exact hfj, htj⟩)
        (by rw [show attempt + 1 + n = attempt + (n + 1) by omega]; exact hfe)
      exact ⟨this.1, by simp [this.2]⟩

theorem getMessageLoop_exhaust (fetch : Nat → FetchOutcome) :
    ∀ (remaining attempt backoff : Nat),
      (∀ k, k < remaining → ∃ ek, fetch (attempt + k) = .err ek ∧ isTransientErr ek = true) →
      (getMessageLoop fetch attempt backoff remaining).1 = .err "max retries exceeded" ∧
        (getMessageLoop fetch attempt backoff remaining).2.length = remaining := by
  intro remaining
  induction remaining with
  | zero => intro attempt backoff h; exact ⟨rfl, rfl⟩
  | succ r ih =>
    intro attempt backoff h
    obtain ⟨e0, hf0, ht0⟩ := h 0 (Nat.succ_pos r)
    simp only [Nat.add_zero] at hf0
    unfold getMessageLoop
    rw [hf0]
    simp only [ht0, if_true]
    have := ih (attempt + 1) (backoff * 2)
      (fun k hk => by
        obtain ⟨ek, hfk, htk⟩ := h (k + 1) (by omega)
        exact ⟨ek, by rw [show attempt + 1 + k = attempt + (k + 1) by omega]; exact hfk, htk⟩)
    exact ⟨this.1, by simp [this.2]⟩

theorem addShipped_processed (st : ScanState) (s : ShippedOrder) :
    (addShipped st s).processed = st.processed := by
  unfold addShipped
  split <;> rfl

theorem foldl_addShipped_processed (l : List ShippedOrder) (st : ScanState) :
    (l.foldl addShipped st).processed = st.processed := by
  induction l generalizing st with
  | nil => rfl
  | cons s rest ih => rw [List.foldl_cons, ih, addShipped_processed]

theorem handleParsedMessage_processed (st : ScanState) (m : EmailMsg) :
    (handleParsedMessage st m).processed = st.processed := by
  unfold handleParsedMessage
  dsimp only
  repeat' split
  all_goals first
    | rfl
    | apply foldl_addShipped_processed

theorem processJob_processed (st : ScanState) (fetch : Nat → FetchOutcome) :
    (processJob st fetch).processed = st.processed + 1 := by
  unfold processJob
  split
  · rfl
  · simp [handleParsedMessage_processed]

theorem processEmails_processed (jobs : List (Nat → FetchOutcome)) (st : ScanState) :
    (processEmails jobs st).processed = st.processed + jobs.length := by
  induction jobs generalizing st with
  | nil => rfl
  | cons j rest ih =>
    show (processEmails rest (processJob st j)).processed = st.processed + (rest.length + 1)
    rw [ih, processJob_processed]
    omega

/-- C7: per-message fetch-retry contract.  (i) the result of `getMessage`
depends only on the first `maxAttempts = 5` attempts; (ii) the backoff sleeps
form the doubling sequence starting at 1 s; (iii) a non-transient error at
attempt `k` (after transient ones) abandons the message immediately with that
error; (iv) five transient failures exhaust the budget; (v) an abandoned
message is counted as processed without contributing any data, and the scan
processes every queued job regardless of failures. -/
theorem c7_retry_contract :
    (∀ (fetch g : Nat → FetchOutcome), (∀ k, k < maxAttempts → fetch k = g k) →
      getMessage fetch = getMessage g) ∧
    (∀ (fetch : Nat → FetchOutcome),
      (getMessage fetch).2 =
        (List.range (getMessage fetch).2.length).map (fun i => 2 ^ i)) ∧
    (∀ (fetch : Nat → FetchOutcome) (k : Nat) (e : String), k < maxAttempts →
      (∀ j, j < k → ∃ ej, fetch j = .err ej ∧ isTransientErr ej = true) →
      fetch k = .err e → isTransientErr e = false →
      (getMessage fetch).1 = .err e ∧ (getMessage fetch).2.length = k) ∧
    (∀ (fetch : Nat → FetchOutcome),
      (∀ k, k < maxAttempts → ∃ ek, fetch k = .err ek ∧ isTransientErr ek = true) →
      (getMessage fetch).1 = .err "max retries exceeded" ∧
        (getMessage fetch).2.length = maxAttempts) ∧
    (∀ (st : ScanState) (fetch : Nat → FetchOutcome) (e : String),
      (getMessage fetch).1 = .err e →
      processJob st fetch = { st with processed := st.processed + 1 }) ∧
    (∀ (jobs : List (Nat → FetchOutcome)) (st : ScanState),
      (processEmails jobs st).processed = st.processed + jobs.length) := by
  refine ⟨?_, ?_, ?_, ?_, ?_, processEmails_processed⟩
  · intro fetch g h
    exact getMessageLoop_congr fetch g maxAttempts 0 1 (fun k hk1 hk2 => h k (by omega))
  · intro fetch
    have := getMessageLoop_sleeps fetch maxAttempts 0 1
    simpa [getMessage] using this
  · intro fetch k e hk hearlier hfe hnt
    exact getMessageLoop_err_at fetch e hnt k maxAttempts 0 1 hk
      (fun j hj => by simpa using hearlier j hj) (by simpa using hfe)
  · intro fetch h
    exact getMessageLoop_exhaust fetch maxAttempts 0 1 (fun k hk => by simpa using h k hk)
  · intro st fetch e h
    unfold processJob
    rw [h]

/-- Witness for `c7_retry_contract`: concrete fetch behaviours — a permanent
failure after two transient ones, full exhaustion, and a two-job scan with
one abandoned message. -/
theorem c7_retry_contract_witness :
    (getMessage (fun k => if k < 2 then .err "backendError" else .err "notFound 404")).1 =
        .err "notFound 404" ∧
      (getMessage (fun k => if k < 2 then .err "backendError" else .err "notFound 404")).2.length = 2 ∧
      (getMessage (fun _ => .err "rateLimitExceeded")).1 = .err "max retries exceeded" ∧
      processJob { } (fun _ => .err "rateLimitExceeded") = { processed := 1 } ∧
      (processEmails [fun _ => .err "rateLimitExceeded",
        fun _ => .ok { subject := "Canceled: order #1" }] { }).processed = 2 := by
  have h3 := c7_retry_contract.2.2.1 (fun k => if k < 2 then .err "backendError" else .err "notFound 404")
    2 "notFound 404" (by decide)
    (fun j hj => ⟨"backendError", by
      have : j < 2 := hj
      simp [this], by decide⟩)
    (by decide) (by decide)
  have h4 := c7_retry_contract.2.2.2.1 (fun _ => .err "rateLimitExceeded")
    (fun k hk => ⟨"rateLimitExceeded", rfl, by decide⟩)
  have h5 := c7_retry_contract.2.2.2.2.1 { } (fun _ => .err "rateLimitExceeded")
    "max retries exceeded" h4.1
  have h6 := c7_retry_contract.2.2.2.2.2
    [fun _ => .err "rateLimitExceeded", fun _ => .ok { subject := "Canceled: order #1" }] { }
  exact ⟨h3.1, h3.2, h4.1, h5, by simpa using h6⟩

/-! ## Price learning (report.go 109-140) -/

/-- Model of Go `strings.ReplaceAll s (String.mk [c]) ""` for one character:
a character filter. -/
def stripAllChar (c : Char) (s : String) : String :=
  String.mk (s.data.filter (fun x => x ≠ c))

/-- Value of a digit string. -/
def digitsToNat (l : List Char) : Nat :=
  l.foldl (fun a c => 10 * a + (c.toNat - 48)) 0

/-- Model of Go `strconv.ParseFloat` restricted to plain decimal literals
(optional sign, integer digits, optional `.` and fractional digits, at least
one digit in total) with an exact rational value.  Exponent, hex and
inf/NaN forms never arise from currency strings and no claim depends on
them. -/
def parseFloatQ (s : String) : Option ℚ :=
  let (sign, body) :=
    if strStartsWith s "-" then ((-1 : ℚ), s.data.drop 1)
    else if strStartsWith s "+" then ((1 : ℚ), s.data.drop 1)
    else ((1 : ℚ), s.data)
  match goSplitChar '.' body with
  | [ip] =>
    if ip ≠ [] ∧ ip.all Char.isDigit then some (sign * digitsToNat ip) else none
  | [ip, fp] =>
    if (ip ≠ [] ∨ fp ≠ []) ∧ ip.all Char.isDigit ∧ fp.all Char.isDigit then
      some (sign * ((digitsToNat ip : ℚ) + (digitsToNat fp : ℚ) / (10 ^ fp.length)))
    else none
  | _ => none

/-- `order.Items[0].Name` (report.go 114), total under the nonempty guard. -/
def firstItemNameOf (order : Order) : String :=
  (order.Items.headD { }).Name

/-- The body of the `learnPrices` loop (report.go 111-138) for one order. -/
def learnStep (learnedPrices : List (String × ℚ)) (order : Order) : List (String × ℚ) :=
  if order.Items.length > 0 then
    let firstItemName := firstItemNameOf order
    let isSingleItemType := order.Items.all (fun it => it.Name == firstItemName)
    if isSingleItemType then
      match alistFind learnedPrices firstItemName with
      | some _ => learnedPrices
      | none =>
        let totalString := stripAllChar ',' (stripAllChar '$' order.Total)
        match parseFloatQ totalString with
        | some totalFloat =>
          let totalQuantity := (order.Items.map Item.Quantity).sum
          if totalQuantity > 0 then
            alistSet learnedPrices firstItemName (totalFloat / (totalQuantity : ℚ))
          else learnedPrices
        | none => learnedPrices
    else learnedPrices
  else learnedPrices

/-- `learnPrices` (report.go 109-140). -/
def learnPrices (nonCanceledOrders : List Order) : List (String × ℚ) :=
  nonCanceledOrders.foldl learnStep []

/-- An order qualifies to teach the price `p` for `name`: it has items, they
all carry the single name `name`, its total parses after stripping `$` and
`,`, its quantities sum to a positive count, and `p` is total over count. -/
def teachesPrice (order : Order) (name : String) (p : ℚ) : Prop :=
  order.Items.length > 0 ∧
  firstItemNameOf order = name ∧
  order.Items.all (fun it => it.Name == name) = true ∧
  ∃ q, parseFloatQ (stripAllChar ',' (stripAllChar '$' order.Total)) = some q ∧
    (order.Items.map Item.Quantity).sum > 0 ∧
    p = q / (((order.Items.map Item.Quantity).sum : Int) : ℚ)

theorem learnStep_monotone (lp : List (String × ℚ)) (o : Order) (name : String) (p : ℚ)
    (h : alistFind lp name = some p) : alistFind (learnStep lp o) name = some p := by
  unfold learnStep
  dsimp only
  repeat' split
  any_goals exact h
  by_cases hn : name = firstItemNameOf o
  · rw [hn] at h
    simp_all
  · rw [alistFind_set_other _ _ _ _ hn]
    exact h

theorem learnStep_new_teaches (lp : List (String × ℚ)) (o : Order) (name : String) (p : ℚ)
    (h0 : alistFind lp name = none) (h : alistFind (learnStep lp o) name = some p) :
    teachesPrice o name p := by
  unfold learnStep at h
  dsimp only at h
  repeat' split at h
  any_goals (rw [h0] at h; cases h)
  rename_i hlen hsingle x1 hfindnone x2 tf hparse hqty
  by_cases hn : name = firstItemNameOf o
  · rw [hn] at h
    rw [alistFind_set_self] at h
    injection h with hp
    rw [← hn] at hsingle
    exact ⟨hlen, hn.symm, hsingle, tf, hparse, hqty, hp.symm⟩
  · rw [alistFind_set_other _ _ _ _ hn] at h
    rw [h0] at h
    cases h

theorem learnPrices_foldl_origin (orders : List Order) :
    ∀ (lp : List (String × ℚ)) (name : String) (p : ℚ),
      alistFind (orders.foldl learnStep lp) name = some p →
      alistFind lp name = some p ∨ ∃ o ∈ orders, teachesPrice o name p := by
  induction orders with
  | nil => intro lp name p h; exact Or.inl h
  | cons o rest ih =>
    intro lp name p h
    rw [List.foldl_cons] at h
    rcases ih (learnStep lp o) name p h with h1 | ⟨o', ho', ht⟩
    · by_cases hnone : alistFind lp name = none
      · exact Or.inr ⟨o, List.mem_cons_self o rest, learnStep_new_teaches lp o name p hnone h1⟩
      · obtain ⟨q, hq⟩ := Option.ne_none_iff_exists'.mp hnone
        have hmono := learnStep_monotone lp o name q hq
        rw [hmono] at h1
        injection h1 with hqp
        exact Or.inl (by rw [hq, hqp])
    · exact Or.inr ⟨o', List.mem_cons_of_mem o ho', ht⟩

theorem learnPrices_monotone_foldl (more : List Order) :
    ∀ (lp : List (String × ℚ)) (name : String) (p : ℚ),
      alistFind lp name = some p → alistFind (more.foldl learnStep lp) name = some p := by
  induction more with
  | nil => intro lp name p h; exact h
  | cons o rest ih =>
    intro lp name p h
    rw [List.foldl_cons]
    exact ih _ name p (learnStep_monotone lp o name p h)

/-- C10: price learning is restricted and first-wins: every learned price
comes from an order whose items all share one name, whose total parses after
stripping `$` and `,`, and whose quantities sum positively — the price being
that total divided by the quantity sum; appending further orders never
changes an already-learned price; and an order mixing different product
names leaves the learned map unchanged. -/
theorem c10_price_learning (orders more : List Order) (o : Order)
    (lp : List (String × ℚ)) (name : String) (p : ℚ) :
    (alistFind (learnPrices orders) name = some p → ∃ o' ∈ orders, teachesPrice o' name p) ∧
    (alistFind (learnPrices orders) name = some p →
      alistFind (learnPrices (orders ++ more)) name = some p) ∧
    (o.Items.all (fun it => it.Name == firstItemNameOf o) = false → learnStep lp o = lp) := by
  refine ⟨?_, ?_, ?_⟩
  · intro h
    rcases learnPrices_foldl_origin orders [] name p h with h1 | h2
    · simp [alistFind] at h1
    · exact h2
  · intro h
    unfold learnPrices at h ⊢
    rw [List.foldl_append]
    exact learnPrices_monotone_foldl more _ name p h
  · intro hmixed
    unfold learnStep
    dsimp only
    rw [hmixed]
    simp

/-- Witness for `c10_price_learning`: two single-name "Widget" orders (the
second with a different total) and a mixed-name order; the learned price is
taken from the first order only ($20.00 for 2 units = $10.00 each). -/
theorem c10_price_learning_witness :
    (∃ o' ∈ [Order.mk "A1" [{ Name := "Widget", Quantity := 2 }] "$20.00" "" 0 "confirmed"],
      teachesPrice o' "Widget" 10) ∧
    alistFind
        (learnPrices ([Order.mk "A1" [{ Name := "Widget", Quantity := 2 }] "$20.00" "" 0 "confirmed"] ++
          [Order.mk "A2" [{ Name := "Widget", Quantity := 1 }] "$99.00" "" 0 "confirmed"]))
        "Widget" = some 10 ∧
    learnStep [] (Order.mk "A3" [{ Name := "Widget", Quantity := 1 }, { Name := "Gadget", Quantity := 1 }] "$5.00" "" 0 "confirmed") = [] := by
  have hbase0 : alistFind
      (learnPrices [Order.mk "A1" [{ Name := "Widget", Quantity := 2 }] "$20.00" "" 0 "confirmed"])
      "Widget" =
      some ((1 : ℚ) * ((digitsToNat ['2', '0'] : ℚ) + (digitsToNat ['0', '0'] : ℚ) / 10 ^ (['0', '0'].length)) /
        (((List.map Item.Quantity [({ Name := "Widget", Quantity := 2 } : Item)]).sum : Int) : ℚ)) := rfl
  have h1 : digitsToNat ['2', '0'] = 20 := rfl
  have h2 : digitsToNat ['0', '0'] = 0 := rfl
  have h3 : (List.map Item.Quantity [({ Name := "Widget", Quantity := 2 } : Item)]).sum = 2 := rfl
  have h4 : (['0', '0'] : List Char).length = 2 := rfl
  have hbase : alistFind
      (learnPrices [Order.mk "A1" [{ Name := "Widget", Quantity := 2 }] "$20.00" "" 0 "confirmed"])
      "Widget" = some 10 := by
    rw [hbase0, h1, h2, h3, h4]
    exact congrArg some (by norm_num)
  refine ⟨?_, ?_, ?_⟩
  · exact (c10_price_learning [Order.mk "A1" [{ Name := "Widget", Quantity := 2 }] "$20.00" "" 0 "confirmed"]
      [] (Order.mk "A1" [] "" "" 0 "") [] "Widget" 10).1 hbase
  · exact (c10_price_learning [Order.mk "A1" [{ Name := "Widget", Quantity := 2 }] "$20.00" "" 0 "confirmed"]
      [Order.mk "A2" [{ Name := "Widget", Quantity := 1 }] "$99.00" "" 0 "confirmed"]
      (Order.mk "A1" [] "" "" 0 "") [] "Widget" 10).2.1 hbase
  · exact (c10_price_learning [] []
      (Order.mk "A3" [{ Name := "Widget", Quantity := 1 }, { Name := "Gadget", Quantity := 1 }] "$5.00" "" 0 "confirmed")
      [] "Widget" 10).2.2 (by decide)

end WalmartOrderChecker
